import Mathlib

/-!
Verification of the OED group-hierarchy model (`src/server/models/Group.js`)
and the meter-update cycle against its specification.

The JavaScript model methods orchestrate parameterized SQL primitives of the
Group Graph Store (spec section 6).  The SQL files themselves are not among
the given sources, so each primitive is modelled from the spec, as noted in
its doc comment; the JavaScript control flow is translated directly.
Stateful code becomes explicit state passing over `GroupsDB`/`ReadingsDB`,
and fallible code returns `Except DBError`.
-/

namespace OED

/-- Error taxonomy of the spec (section 7): precondition violations,
missing references (`NotFound`), and conflicts surfaced by the store. -/
inductive DBError where
  | NotFound
  | Conflict
  | Precondition
deriving DecidableEq

/-- In-memory group handle (`Group.js` constructor): `id` is `none` before
the group is persisted (JavaScript `undefined`). -/
structure Group where
  id : Option Nat
  name : String
deriving DecidableEq

/-- State of the group-graph store: group rows `(id, name)`, the meter
registry rows (ids), the two edge relations stored as
`(parent_id, child_id)` and `(group_id, meter_id)` pairs (spec section 6),
and the id sequence used by inserts.  Edge parent components are
`Option Nat` because `adoptGroup`/`adoptMeter` insert `this.id` verbatim,
which is `none` for a never-inserted parent handle. -/
structure GroupsDB where
  groups : List (Nat × String)
  meters : List Nat
  groupChild : List (Option Nat × Nat)
  meterChild : List (Option Nat × Nat)
  nextId : Nat
deriving DecidableEq

/-- Modelled from the spec: `group/get_group_by_id.sql` is the by-id lookup
primitive of the Group Graph Store (section 6); `conn().one` resolves with
the single matching row and rejects when there is none, surfaced to the
caller as `NotFound` (section 7). -/
def get_group_by_id (db : GroupsDB) (id : Nat) : Except DBError (Nat × String) :=
  match db.groups.find? (fun r => r.1 == id) with
  | some row => Except.ok row
  | none => Except.error DBError.NotFound

/-- Method `Group.mapRow` (`Group.js`): builds a handle from a row. -/
def Group.mapRow (row : Nat × String) : Group :=
  { id := some row.1, name := row.2 }

/-- Method `Group.getByID` (`Group.js`): fetches the row and maps it. -/
def Group.getByID (db : GroupsDB) (id : Nat) : Except DBError Group :=
  (get_group_by_id db id).map Group.mapRow

/-- Method `Group.insert` (`Group.js`): throws before any store call when the id
is already set; otherwise the insert primitive
(`group/insert_new_group.sql`, modelled from the spec table in section 4.2:
assigns a new id, persists the row) stores the row and the fresh id is
written back to `this.id`. -/
def Group.insert (g : Group) (db : GroupsDB) : Except DBError (GroupsDB × Group) :=
  if g.id ≠ none then
    Except.error DBError.Precondition
  else
    Except.ok
      ({ db with groups := db.groups ++ [(db.nextId, g.name)], nextId := db.nextId + 1 },
       { g with id := some db.nextId })

/-- Method `Group.adoptGroup` (`Group.js` lines 114-118): looks the child group up
(surfacing `NotFound` when it is absent) and then runs the edge-insert
primitive (`group/associate_child_group_with_parent_group.sql`, modelled
from the spec section 6 as a plain `(parent_id, child_id)` edge insert)
with `parent_id = this.id` taken verbatim.  No cycle check and no check of
the parent appear anywhere on this path. -/
def Group.adoptGroup (g : Group) (childID : Nat) (db : GroupsDB) : Except DBError GroupsDB :=
  match get_group_by_id db childID with
  | Except.error e => Except.error e
  | Except.ok row => Except.ok { db with groupChild := db.groupChild ++ [(g.id, row.1)] }

/-- Modelled from the spec: `Meter.getByID` of the Meter Registry
(section 6), used by `adoptMeter` to validate the adopt target;
`Meter.js` is not among the given sources. -/
def Meter.getByID (db : GroupsDB) (id : Nat) : Except DBError Nat :=
  if id ∈ db.meters then Except.ok id else Except.error DBError.NotFound

/-- Method `Group.adoptMeter` (`Group.js` lines 126-129): validates only the meter
and inserts the `(group_id, meter_id)` edge with `this.id` verbatim
(`group/associate_child_meter_with_parent_group.sql` modelled from the spec
section 6 as a plain edge insert). -/
def Group.adoptMeter (g : Group) (meterID : Nat) (db : GroupsDB) : Except DBError GroupsDB :=
  match Meter.getByID db meterID with
  | Except.error e => Except.error e
  | Except.ok mid => Except.ok { db with meterChild := db.meterChild ++ [(g.id, mid)] }

/-- Children (`child_id` components) of the edges whose `parent_id` equals
`some p`. -/
def childIDs (edges : List (Option Nat × Nat)) (p : Nat) : List Nat :=
  (edges.filter (fun e => e.1 == some p)).map Prod.snd

/-- Method `Group.getImmediateGroupsByGroupID` (`Group.js`): one-hop child groups
(`group/get_immediate_groups_by_group_id.sql` modelled from the spec
section 4.2 as the one-hop children query). -/
def Group.getImmediateGroupsByGroupID (db : GroupsDB) (id : Nat) : List Nat :=
  childIDs db.groupChild id

/-- One breadth-style expansion of a visited set: keep `s` and add the
children of every member, deduplicating the ids. -/
def expandStep (edges : List (Option Nat × Nat)) (s : List Nat) : List Nat :=
  (s ++ (edges.filter (fun e => decide (∃ p ∈ s, e.1 = some p))).map Prod.snd).dedup

/-- Iterated expansion of a visited set (`k` rounds). -/
def deepAux (edges : List (Option Nat × Nat)) : Nat → List Nat → List Nat
  | 0, s => s
  | k + 1, s => deepAux edges k (expandStep edges s)

/-- Modelled from the spec: `group/get_deep_groups_by_group_id.sql` is the
recursive descendant query of the Group Graph Store (section 6); per
section 4.2 it computes the full transitive closure of child groups by a
visited-set traversal with id deduplication.  Expanding one round more than
the number of distinct edge targets is always enough to reach the fixpoint
of the expansion, so the traversal is a total function and terminates by
construction. -/
def deepClosure (edges : List (Option Nat × Nat)) (id : Nat) : List Nat :=
  deepAux edges ((edges.map Prod.snd).dedup.length + 1) (childIDs edges id).dedup

/-- Method `Group.getDeepGroupsByGroupID` (`Group.js` lines 137-140). -/
def Group.getDeepGroupsByGroupID (db : GroupsDB) (id : Nat) : List Nat :=
  deepClosure db.groupChild id

/-- Row update performed by the rename primitive: the row keyed by `gid`
receives the new name, every other row is kept. -/
def renameRow (gid : Option Nat) (newName : String) (r : Nat × String) : Nat × String :=
  if some r.1 == gid then (r.1, newName) else r

/-- Modelled from the spec: `group/rename_group.sql` updates the row keyed
by `this.id`; the persisted layout keeps group names unique (section 6), so
the update fails with `Conflict` (section 4.2) exactly when it actually
renames a row and some other row already carries the new name. -/
def rename_group (db : GroupsDB) (gid : Option Nat) (newName : String) : Except DBError GroupsDB :=
  if db.groups.any (fun r => some r.1 == gid) &&
      db.groups.any (fun r => r.2 == newName && !(some r.1 == gid)) then
    Except.error DBError.Conflict
  else
    Except.ok { db with groups := db.groups.map (renameRow gid newName) }

/-- Method `Group.rename` (`Group.js` lines 159-161): runs the update primitive
with `new_name` and `this.id`; nothing is assigned back to the in-memory
object, so the handle is returned unchanged. -/
def Group.rename (g : Group) (newName : String) (db : GroupsDB) :
    Except DBError (GroupsDB × Group) :=
  (rename_group db g.id newName).map (fun db2 => (db2, g))

/-- Method `Group.disownGroup` (`Group.js` lines 169-172): the edge-delete
primitive (`group/disown_child_group.sql`, modelled from the spec section 6)
removes every `(this.id, childID)` row; deleting zero rows is not an
error. -/
def Group.disownGroup (g : Group) (childID : Nat) (db : GroupsDB) : Except DBError GroupsDB :=
  Except.ok { db with groupChild := db.groupChild.filter (fun e => !(e.1 == g.id && e.2 == childID)) }

/-- Method `Group.disownMeter` (`Group.js` lines 178-181): same shape on the
group-meter edge relation. -/
def Group.disownMeter (g : Group) (meterID : Nat) (db : GroupsDB) : Except DBError GroupsDB :=
  Except.ok { db with meterChild := db.meterChild.filter (fun e => !(e.1 == g.id && e.2 == meterID)) }

/-- Method `Group.getParents` (`Group.js` lines 188-191): one-hop parents of
`this.id` (`group/get_parents_by_group_id.sql` modelled from the spec
section 4.2 as the one-hop parents query keyed by `child_id`). -/
def Group.getParents (g : Group) (db : GroupsDB) : List (Option Nat) :=
  (db.groupChild.filter (fun e => some e.2 == g.id)).map Prod.fst

/-- Method `Group.delete` (`Group.js` lines 199-201): runs `group/delete_group.sql`
with only the id — the method has no cascade parameter and no conflict
branch.  The primitive is modelled from the spec effect clause (section
4.2, removes the group and purges all edges in both directions) and from
the source doc comment (purge all trace of it from the memories of its
parents and children). -/
def Group.delete (groupID : Nat) (db : GroupsDB) : Except DBError GroupsDB :=
  Except.ok { db with
    groups := db.groups.filter (fun r => !(r.1 == groupID)),
    groupChild := db.groupChild.filter (fun e => !(e.1 == some groupID) && !(e.2 == groupID)),
    meterChild := db.meterChild.filter (fun e => !(e.1 == some groupID)) }

/-- Reading (spec section 3): one consumption value over a half-open
interval, belonging to exactly one meter. -/
structure Reading where
  meterID : Nat
  value : Int
  startTimestamp : Nat
  endTimestamp : Nat
deriving DecidableEq

/-- Interval invariant of the spec (section 3): start before end. -/
def validReading (r : Reading) : Bool :=
  decide (r.startTimestamp < r.endTimestamp)

/-- State of the Reading Store (spec section 6). -/
structure ReadingsDB where
  readings : List Reading
deriving DecidableEq

/-- Modelled from the spec: `Reading.getAllByMeterID` of the Reading Store
(section 6); `Reading.js` is not among the given sources. -/
def Reading.getAllByMeterID (db : ReadingsDB) (meterID : Nat) : List Reading :=
  db.readings.filter (fun r => r.meterID == meterID)

/-- One meter's step of the update cycle: when the adapter resolves a
reading (`some r`) that passes validation, persist it; when the adapter
rejects (`none`) or the reading is invalid, skip the meter (spec section
4.1). -/
def applyMeter (reader : Nat → Option Reading) (db : ReadingsDB) (m : Nat) : ReadingsDB :=
  match reader m with
  | some r => if validReading r then { readings := db.readings ++ [r] } else db
  | none => db

/-- Modelled from the spec: `updateAllMeters`
(`src/server/services/updateMeters.js`, required by `updateMetersTests.js`
but not among the given sources) — the `runUpdateCycle` contract of section
4.1: process every meter of the batch exactly once; a rejection for one
meter never aborts the processing of the others.  The per-meter adapter
outcome is modelled by a deterministic map, as the sinon stub of the test
does. -/
def updateAllMeters (reader : Nat → Option Reading) (meters : List Nat) (db : ReadingsDB) :
    ReadingsDB :=
  meters.foldl (applyMeter reader) db

/-- True when the meter's fetch resolves and the reading passes
validation. -/
def fetchSucceeds (reader : Nat → Option Reading) (m : Nat) : Bool :=
  match reader m with
  | some r => validReading r
  | none => false

/-- Relation `Desc edges p c`: group `c` is a deep descendant of group `p`, i.e.
reachable from `p` via one or more child edges (spec glossary). -/
inductive Desc (edges : List (Option Nat × Nat)) : Nat → Nat → Prop where
  | base {p c : Nat} : (some p, c) ∈ edges → Desc edges p c
  | tail {p c d : Nat} : Desc edges p c → (some c, d) ∈ edges → Desc edges p d

/-! Helper lemmas about the store primitives. -/

lemma get_group_by_id_err {db : GroupsDB} {i : Nat} (h : i ∉ db.groups.map Prod.fst) :
    get_group_by_id db i = Except.error DBError.NotFound := by
  unfold get_group_by_id
  have hn : db.groups.find? (fun r => r.1 == i) = none := by
    rw [List.find?_eq_none]
    intro r hr hb
    exact h (List.mem_map.mpr ⟨r, hr, beq_iff_eq.mp hb⟩)
  rw [hn]

lemma get_group_by_id_ok {db : GroupsDB} {i : Nat} (h : i ∈ db.groups.map Prod.fst) :
    ∃ nm, get_group_by_id db i = Except.ok (i, nm) := by
  unfold get_group_by_id
  rcases hf : db.groups.find? (fun r => r.1 == i) with _ | row
  · rw [List.find?_eq_none] at hf
    rcases List.mem_map.mp h with ⟨r, hr, hri⟩
    exact absurd (beq_iff_eq.mpr hri) (hf r hr)
  · have h0 := List.find?_some hf
    have h1 : row.1 = i := beq_iff_eq.mp h0
    subst h1
    refine ⟨row.2, ?_⟩
    rw [hf, Prod.mk.eta]

lemma adoptGroup_ok {g : Group} {cid : Nat} {db : GroupsDB}
    (h : cid ∈ db.groups.map Prod.fst) :
    Group.adoptGroup g cid db =
      Except.ok { db with groupChild := db.groupChild ++ [(g.id, cid)] } := by
  rcases get_group_by_id_ok h with ⟨nm, hget⟩
  unfold Group.adoptGroup
  rw [hget]

lemma adoptGroup_err {g : Group} {cid : Nat} {db : GroupsDB}
    (h : cid ∉ db.groups.map Prod.fst) :
    Group.adoptGroup g cid db = Except.error DBError.NotFound := by
  unfold Group.adoptGroup
  rw [get_group_by_id_err h]

lemma adoptMeter_ok {g : Group} {mid : Nat} {db : GroupsDB} (h : mid ∈ db.meters) :
    Group.adoptMeter g mid db =
      Except.ok { db with meterChild := db.meterChild ++ [(g.id, mid)] } := by
  unfold Group.adoptMeter Meter.getByID
  rw [if_pos h]

lemma adoptMeter_err {g : Group} {mid : Nat} {db : GroupsDB} (h : mid ∉ db.meters) :
    Group.adoptMeter g mid db = Except.error DBError.NotFound := by
  unfold Group.adoptMeter Meter.getByID
  rw [if_neg h]

/-! Claim theorems. -/

/-- C5: when the child group id is absent from the store, the child lookup
of `adoptGroup` rejects, the call surfaces `NotFound`, and the operation
has no effect — the error carries no updated store, so no
`parent → child` edge is added. -/
theorem adoptGroup_absent_child_notFound (g : Group) (childID : Nat) (db : GroupsDB)
    (h : childID ∉ db.groups.map Prod.fst) :
    Group.adoptGroup g childID db = Except.error DBError.NotFound ∧
    ∀ db2 : GroupsDB, Group.adoptGroup g childID db ≠ Except.ok db2 := by
  refine ⟨adoptGroup_err h, ?_⟩
  intro db2 hc
  rw [adoptGroup_err h] at hc
  exact Except.noConfusion hc

/-- Witness for C5: on a store holding only group 1, adopting the absent
group 7 fails with `NotFound`. -/
theorem adoptGroup_absent_child_notFound_witness :
    Group.adoptGroup (Group.mk none "g") 7 (GroupsDB.mk [(1, "a")] [] [] [] 2) =
      Except.error DBError.NotFound :=
  (adoptGroup_absent_child_notFound (Group.mk none "g") 7
    (GroupsDB.mk [(1, "a")] [] [] [] 2) (by decide)).1

/-- C6: inserting a handle whose id is already set fails with the
precondition error and, the error being raised before any store call, the
store is unchanged (the call yields no successor state); inserting a handle
with no id persists a row under the fresh id `db.nextId` — an id carried by
no existing row whenever the row ids sit below the sequence — and writes
that id back to the handle. -/
theorem insert_requires_unassigned_id (g : Group) (db : GroupsDB) :
    (g.id ≠ none → Group.insert g db = Except.error DBError.Precondition) ∧
    (g.id = none → (∀ r ∈ db.groups, r.1 < db.nextId) →
      Group.insert g db =
        Except.ok
          ({ db with groups := db.groups ++ [(db.nextId, g.name)], nextId := db.nextId + 1 },
           { g with id := some db.nextId }) ∧
      db.nextId ∉ db.groups.map Prod.fst) := by
  constructor
  · intro h
    unfold Group.insert
    rw [if_pos h]
  · intro h hfresh
    constructor
    · unfold Group.insert
      rw [if_neg (by simp [h])]
    · intro hmem
      rcases List.mem_map.mp hmem with ⟨r, hr, hr1⟩
      exact absurd (hr1 ▸ hfresh r hr) (lt_irrefl _)

/-- Witness for C6: inserting a handle with id 5 fails; inserting a fresh
handle persists it under the next sequence id 2. -/
theorem insert_requires_unassigned_id_witness :
    Group.insert (Group.mk (some 5) "x") (GroupsDB.mk [(1, "a")] [] [] [] 2) =
      Except.error DBError.Precondition ∧
    Group.insert (Group.mk none "y") (GroupsDB.mk [(1, "a")] [] [] [] 2) =
      Except.ok (GroupsDB.mk [(1, "a"), (2, "y")] [] [] [] 3, Group.mk (some 2) "y") := by
  constructor
  · exact (insert_requires_unassigned_id (Group.mk (some 5) "x")
      (GroupsDB.mk [(1, "a")] [] [] [] 2)).1 (by decide)
  · exact ((insert_requires_unassigned_id (Group.mk none "y")
      (GroupsDB.mk [(1, "a")] [] [] [] 2)).2 rfl (by decide)).1

/-- C9: adoption validates only the child: for every handle `g` — whether
or not `g.id` names a persisted group, `none` included — `adoptGroup`
(resp. `adoptMeter`) succeeds exactly when the child group (resp. meter) id
is present in the store, and on success the inserted edge carries `g.id`
verbatim. -/
theorem adopt_validates_only_child (g : Group) (cid : Nat) (db : GroupsDB) :
    ((∃ db2, Group.adoptGroup g cid db = Except.ok db2) ↔ cid ∈ db.groups.map Prod.fst) ∧
    (cid ∈ db.groups.map Prod.fst →
      Group.adoptGroup g cid db =
        Except.ok { db with groupChild := db.groupChild ++ [(g.id, cid)] }) ∧
    ((∃ db2, Group.adoptMeter g cid db = Except.ok db2) ↔ cid ∈ db.meters) ∧
    (cid ∈ db.meters →
      Group.adoptMeter g cid db =
        Except.ok { db with meterChild := db.meterChild ++ [(g.id, cid)] }) := by
  refine ⟨⟨?_, ?_⟩, fun h => adoptGroup_ok h, ⟨?_, ?_⟩, fun h => adoptMeter_ok h⟩
  · rintro ⟨db2, hok⟩
    by_contra hab
    rw [adoptGroup_err hab] at hok
    exact Except.noConfusion hok
  · intro h
    exact ⟨_, adoptGroup_ok h⟩
  · rintro ⟨db2, hok⟩
    by_contra hab
    rw [adoptMeter_err hab] at hok
    exact Except.noConfusion hok
  · intro h
    exact ⟨_, adoptMeter_ok h⟩

/-- Witness for C9: a handle that was never inserted (`id = none`, not in
the store) still successfully adopts group 1 and meter 4, and the recorded
edges carry the undefined parent id. -/
theorem adopt_validates_only_child_witness :
    Group.adoptGroup (Group.mk none "ghost") 1 (GroupsDB.mk [(1, "a")] [4] [] [] 2) =
      Except.ok (GroupsDB.mk [(1, "a")] [4] [(none, 1)] [] 2) ∧
    Group.adoptMeter (Group.mk none "ghost") 4 (GroupsDB.mk [(1, "a")] [4] [] [] 2) =
      Except.ok (GroupsDB.mk [(1, "a")] [4] [] [(none, 4)] 2) :=
  ⟨(adopt_validates_only_child (Group.mk none "ghost") 1
      (GroupsDB.mk [(1, "a")] [4] [] [] 2)).2.1 (by decide),
   (adopt_validates_only_child (Group.mk none "ghost") 4
      (GroupsDB.mk [(1, "a")] [4] [] [] 2)).2.2.2 (by decide)⟩

lemma edge_keep_iff (a : Option Nat) (b : Nat) (e : Option Nat × Nat) :
    ((!(e.1 == a && e.2 == b)) = true) ↔ e ≠ (a, b) := by
  rcases e with ⟨x, y⟩
  simp [Prod.mk.injEq, not_and]
  tauto

/-- C8: disowning is total and touches only the matching edge rows: on an
absent edge both `disownGroup` and `disownMeter` return the store verbatim
(no failure, no other edge removed), running either twice leaves the state
of running it once, and an edge different from the disowned one is kept
while every copy of the disowned edge is removed. -/
theorem disown_absent_edge_noop (g : Group) (cid : Nat) (db : GroupsDB) :
    ((g.id, cid) ∉ db.groupChild → Group.disownGroup g cid db = Except.ok db) ∧
    (∀ db2, Group.disownGroup g cid db = Except.ok db2 →
      Group.disownGroup g cid db2 = Except.ok db2 ∧
      (∀ e : Option Nat × Nat, e ∈ db2.groupChild ↔ e ∈ db.groupChild ∧ e ≠ (g.id, cid)) ∧
      db2.meterChild = db.meterChild ∧ db2.groups = db.groups) ∧
    ((g.id, cid) ∉ db.meterChild → Group.disownMeter g cid db = Except.ok db) ∧
    (∀ db2, Group.disownMeter g cid db = Except.ok db2 →
      Group.disownMeter g cid db2 = Except.ok db2 ∧
      (∀ e : Option Nat × Nat, e ∈ db2.meterChild ↔ e ∈ db.meterChild ∧ e ≠ (g.id, cid)) ∧
      db2.groupChild = db.groupChild ∧ db2.groups = db.groups) := by
  refine ⟨?_, ?_, ?_, ?_⟩
  · intro habs
    unfold Group.disownGroup
    have hself : db.groupChild.filter (fun e => !(e.1 == g.id && e.2 == cid)) = db.groupChild := by
      rw [List.filter_eq_self]
      intro e he
      exact (edge_keep_iff g.id cid e).mpr (fun hc => habs (hc ▸ he))
    rw [hself]
  · intro db2 hdb2
    unfold Group.disownGroup at hdb2
    have hdb2' : db2 = { db with
        groupChild := db.groupChild.filter (fun e => !(e.1 == g.id && e.2 == cid)) } :=
      (Except.ok.injEq _ _).mp hdb2.symm
    subst hdb2'
    refine ⟨?_, ?_, rfl, rfl⟩
    · unfold Group.disownGroup
      have hidem : (db.groupChild.filter (fun e => !(e.1 == g.id && e.2 == cid))).filter
          (fun e => !(e.1 == g.id && e.2 == cid)) =
          db.groupChild.filter (fun e => !(e.1 == g.id && e.2 == cid)) := by
        rw [List.filter_eq_self]
        intro e he
        exact (List.mem_filter.mp he).2
      simp only [hidem]
    · intro e
      rw [List.mem_filter, edge_keep_iff]
  · intro habs
    unfold Group.disownMeter
    have hself : db.meterChild.filter (fun e => !(e.1 == g.id && e.2 == cid)) = db.meterChild := by
      rw [List.filter_eq_self]
      intro e he
      exact (edge_keep_iff g.id cid e).mpr (fun hc => habs (hc ▸ he))
    rw [hself]
  · intro db2 hdb2
    unfold Group.disownMeter at hdb2
    have hdb2' : db2 = { db with
        meterChild := db.meterChild.filter (fun e => !(e.1 == g.id && e.2 == cid)) } :=
      (Except.ok.injEq _ _).mp hdb2.symm
    subst hdb2'
    refine ⟨?_, ?_, rfl, rfl⟩
    · unfold Group.disownMeter
      have hidem : (db.meterChild.filter (fun e => !(e.1 == g.id && e.2 == cid))).filter
          (fun e => !(e.1 == g.id && e.2 == cid)) =
          db.meterChild.filter (fun e => !(e.1 == g.id && e.2 == cid)) := by
        rw [List.filter_eq_self]
        intro e he
        exact (List.mem_filter.mp he).2
      simp only [hidem]
    · intro e
      rw [List.mem_filter, edge_keep_iff]

/-- Witness for C8: disowning the absent child 2 of group 1 leaves a store
holding only the unrelated edge `(1, 3)` untouched. -/
theorem disown_absent_edge_noop_witness :
    Group.disownGroup (Group.mk (some 1) "a") 2 (GroupsDB.mk [(1, "a")] [] [(some 1, 3)] [] 2) =
      Except.ok (GroupsDB.mk [(1, "a")] [] [(some 1, 3)] [] 2) :=
  (disown_absent_edge_noop (Group.mk (some 1) "a") 2
    (GroupsDB.mk [(1, "a")] [] [(some 1, 3)] [] 2)).1 (by decide)

lemma find?_fst {l : List (Nat × String)} {i : Nat} (h : i ∈ l.map Prod.fst) :
    ∃ nm, l.find? (fun r => r.1 == i) = some (i, nm) := by
  rcases hf : l.find? (fun r => r.1 == i) with _ | row
  · rw [List.find?_eq_none] at hf
    rcases List.mem_map.mp h with ⟨r, hr, hri⟩
    exact absurd (beq_iff_eq.mpr hri) (hf r hr)
  · have h0 := List.find?_some hf
    have h1 : row.1 = i := beq_iff_eq.mp h0
    subst h1
    exact ⟨row.2, by rw [Prod.mk.eta]; exact hf⟩

lemma rename_group_ok {db : GroupsDB} {i : Nat} {newName : String}
    (huniq : ∀ r ∈ db.groups, r.2 = newName → r.1 = i) :
    rename_group db (some i) newName =
      Except.ok { db with groups := db.groups.map (renameRow (some i) newName) } := by
  unfold rename_group
  have h2 : db.groups.any (fun r => r.2 == newName && !(some r.1 == some i)) = false := by
    rw [List.any_eq_false]
    intro r hr hb
    simp only [Bool.and_eq_true, beq_iff_eq, Bool.not_eq_true'] at hb
    have : r.1 = i := huniq r hr hb.1
    simp [this] at hb
  rw [h2, Bool.and_false]
  rfl

lemma rename_group_conflict {db : GroupsDB} {i : Nat} {n0 newName : String}
    (hmem : (i, n0) ∈ db.groups)
    (hdup : ∃ r ∈ db.groups, r.2 = newName ∧ r.1 ≠ i) :
    rename_group db (some i) newName = Except.error DBError.Conflict := by
  unfold rename_group
  have h1 : db.groups.any (fun r => some r.1 == some i) = true :=
    List.any_eq_true.mpr ⟨(i, n0), hmem, by simp⟩
  rcases hdup with ⟨r, hr, hrn, hri⟩
  have h2 : db.groups.any (fun r => r.2 == newName && !(some r.1 == some i)) = true :=
    List.any_eq_true.mpr ⟨r, hr, by simp [hrn, hri]⟩
  rw [h1, h2, Bool.and_self]
  rfl

lemma find?_rename_map (l : List (Nat × String)) (i : Nat) (newName : String)
    (h : i ∈ l.map Prod.fst) :
    (l.map (renameRow (some i) newName)).find? (fun r => r.1 == i) = some (i, newName) := by
  rcases find?_fst h with ⟨nm, hf⟩
  have hcomp : ((fun r : Nat × String => r.1 == i) ∘ renameRow (some i) newName) =
      (fun r : Nat × String => r.1 == i) := by
    funext r
    by_cases hc : (some r.1 == some i) = true
    · simp [Function.comp, renameRow, hc]
    · simp [Function.comp, renameRow, hc]
  rw [List.find?_map, hcomp, hf]
  simp [renameRow]

lemma getByID_eq_ok (db : GroupsDB) (i : Nat) (nm : String)
    (h : db.groups.find? (fun r => r.1 == i) = some (i, nm)) :
    Group.getByID db i = Except.ok (Group.mk (some i) nm) := by
  unfold Group.getByID get_group_by_id
  rw [h]
  rfl

/-- C7: renaming a persisted group to a name already carried by a different
group fails with `Conflict`; renaming it to a name no other group carries
succeeds and updates the group's persisted row to the new name. -/
theorem rename_unique_name (g : Group) (newName : String) (db : GroupsDB) (i : Nat) (n0 : String)
    (hid : g.id = some i) (hmem : (i, n0) ∈ db.groups) :
    ((∃ r ∈ db.groups, r.2 = newName ∧ r.1 ≠ i) →
      Group.rename g newName db = Except.error DBError.Conflict) ∧
    ((∀ r ∈ db.groups, r.2 = newName → r.1 = i) →
      ∃ db2, Group.rename g newName db = Except.ok (db2, g) ∧ (i, newName) ∈ db2.groups) := by
  constructor
  · intro hdup
    unfold Group.rename
    rw [hid, rename_group_conflict hmem hdup]
    rfl
  · intro huniq
    unfold Group.rename
    rw [hid, rename_group_ok huniq]
    refine ⟨_, rfl, ?_⟩
    exact List.mem_map.mpr ⟨(i, n0), hmem, by simp [renameRow]⟩

/-- Witness for C7: with groups 1 (named a) and 2 (named b), renaming group
1 to b conflicts, renaming it to c succeeds and persists the new name. -/
theorem rename_unique_name_witness :
    Group.rename (Group.mk (some 1) "a") "b" (GroupsDB.mk [(1, "a"), (2, "b")] [] [] [] 3) =
      Except.error DBError.Conflict ∧
    ∃ db2, Group.rename (Group.mk (some 1) "a") "c" (GroupsDB.mk [(1, "a"), (2, "b")] [] [] [] 3) =
      Except.ok (db2, Group.mk (some 1) "a") ∧ (1, "c") ∈ db2.groups := by
  constructor
  · exact (rename_unique_name (Group.mk (some 1) "a") "b"
      (GroupsDB.mk [(1, "a"), (2, "b")] [] [] [] 3) 1 "a" rfl (by simp)).1
      ⟨(2, "b"), by simp, rfl, by decide⟩
  · exact (rename_unique_name (Group.mk (some 1) "a") "c"
      (GroupsDB.mk [(1, "a"), (2, "b")] [] [] [] 3) 1 "a" rfl (by simp)).2 (by decide)

/-- C10: a successful `rename` changes no field of the in-memory handle —
the returned handle is exactly `g`, still carrying the old name — while the
persisted row keyed by `this.id` now carries the new name, as a subsequent
`getByID` reports. -/
theorem rename_leaves_handle_unchanged (g : Group) (newName : String) (db : GroupsDB)
    (i : Nat) (n0 : String) (hid : g.id = some i) (hmem : (i, n0) ∈ db.groups)
    (huniq : ∀ r ∈ db.groups, r.2 = newName → r.1 = i) :
    ∃ db2, Group.rename g newName db = Except.ok (db2, g) ∧
      Group.getByID db2 i = Except.ok (Group.mk (some i) newName) := by
  unfold Group.rename
  rw [hid, rename_group_ok huniq]
  refine ⟨_, rfl, ?_⟩
  have hfind := find?_rename_map db.groups i newName (List.mem_map.mpr ⟨(i, n0), hmem, rfl⟩)
  exact getByID_eq_ok _ i newName hfind

/-- Witness for C10: renaming group 1 from a to c returns the handle still
named a while the store now reports the row as c. -/
theorem rename_leaves_handle_unchanged_witness :
    ∃ db2, Group.rename (Group.mk (some 1) "a") "c" (GroupsDB.mk [(1, "a")] [] [] [] 2) =
      Except.ok (db2, Group.mk (some 1) "a") ∧
      Group.getByID db2 1 = Except.ok (Group.mk (some 1) "c") :=
  rename_leaves_handle_unchanged (Group.mk (some 1) "a") "c"
    (GroupsDB.mk [(1, "a")] [] [] [] 2) 1 "a" rfl (by simp) (by decide)

lemma Desc.mono {E F : List (Option Nat × Nat)} (h : ∀ e ∈ E, e ∈ F) {p c : Nat}
    (hd : Desc E p c) : Desc F p c := by
  induction hd with
  | base hm => exact Desc.base (h _ hm)
  | tail _ hm ih => exact Desc.tail ih (h _ hm)

/-- C3 counterexample: group 2 is still referenced (it has parent 1) and
`delete` offers no way to request a cascade — its only parameter is the id —
yet `delete 2` does not fail with `Conflict`: it succeeds and cascades. -/
theorem delete_conflict_counterexample :
    Group.delete 2 (GroupsDB.mk [(1, "a"), (2, "b")] [] [(some 1, 2)] [] 3) =
      Except.ok (GroupsDB.mk [(1, "a")] [] [] [] 3) ∧
    Group.delete 2 (GroupsDB.mk [(1, "a"), (2, "b")] [] [(some 1, 2)] [] 3) ≠
      Except.error DBError.Conflict := by
  constructor
  · rfl
  · intro h
    exact Except.noConfusion h

/-- C3 (amended): `delete(groupID)` never fails — the method has no cascade
parameter and always cascades: it removes the group row and purges every
edge touching the group in either direction, so any subsequent
`getImmediateGroupsByGroupID` or `getParents` call referencing that id
returns an empty result. -/
theorem delete_always_purges (gid : Nat) (db : GroupsDB) :
    ∃ db2, Group.delete gid db = Except.ok db2 ∧
      Group.getImmediateGroupsByGroupID db2 gid = [] ∧
      (∀ g : Group, g.id = some gid → Group.getParents g db2 = []) ∧
      gid ∉ db2.groups.map Prod.fst ∧
      (∀ e ∈ db2.groupChild, e.1 ≠ some gid ∧ e.2 ≠ gid) ∧
      (∀ e ∈ db2.meterChild, e.1 ≠ some gid) := by
  have hedge : ∀ e ∈ (db.groupChild.filter
      (fun e => !(e.1 == some gid) && !(e.2 == gid))), e.1 ≠ some gid ∧ e.2 ≠ gid := by
    intro e he
    have hp := (List.mem_filter.mp he).2
    simp only [Bool.and_eq_true, Bool.not_eq_true'] at hp
    exact ⟨beq_eq_false_iff_ne.mp hp.1, beq_eq_false_iff_ne.mp hp.2⟩
  refine ⟨_, rfl, ?_, ?_, ?_, hedge, ?_⟩
  · unfold Group.getImmediateGroupsByGroupID childIDs
    rw [show (List.filter (fun e => e.1 == some gid) (db.groupChild.filter
        (fun e => !(e.1 == some gid) && !(e.2 == gid)))) = [] from ?_, List.map_nil]
    rw [List.filter_eq_nil_iff]
    intro e he hb
    exact (hedge e he).1 (beq_iff_eq.mp hb)
  · intro g hg
    unfold Group.getParents
    rw [show (List.filter (fun e => some e.2 == g.id) (db.groupChild.filter
        (fun e => !(e.1 == some gid) && !(e.2 == gid)))) = [] from ?_, List.map_nil]
    rw [List.filter_eq_nil_iff]
    intro e he hb
    rw [hg] at hb
    exact (hedge e he).2 (Option.some_inj.mp (beq_iff_eq.mp hb))
  · intro hmem
    rcases List.mem_map.mp hmem with ⟨r, hr, hr1⟩
    have hp := (List.mem_filter.mp hr).2
    rw [Bool.not_eq_true'] at hp
    exact beq_eq_false_iff_ne.mp hp hr1
  · intro e he
    have hp := (List.mem_filter.mp he).2
    rw [Bool.not_eq_true'] at hp
    exact beq_eq_false_iff_ne.mp hp

/-- Witness for C3 (amended), instantiated at the referenced group 2. -/
theorem delete_always_purges_witness :
    ∃ db2, Group.delete 2 (GroupsDB.mk [(1, "a"), (2, "b")] [] [(some 1, 2)] [] 3) =
      Except.ok db2 ∧
      Group.getImmediateGroupsByGroupID db2 2 = [] ∧
      (∀ g : Group, g.id = some 2 → Group.getParents g db2 = []) ∧
      2 ∉ db2.groups.map Prod.fst ∧
      (∀ e ∈ db2.groupChild, e.1 ≠ some 2 ∧ e.2 ≠ 2) ∧
      (∀ e ∈ db2.meterChild, e.1 ≠ some 2) :=
  delete_always_purges 2 (GroupsDB.mk [(1, "a"), (2, "b")] [] [(some 1, 2)] [] 3)

/-- C1 counterexample: starting from an acyclic store holding group 1 and
no edges, `adoptGroup` lets group 1 adopt itself: the call is not rejected
and afterwards the child-group relation contains a cycle (1 is its own deep
descendant). -/
theorem adoptGroup_cycle_counterexample :
    Group.adoptGroup (Group.mk (some 1) "a") 1 (GroupsDB.mk [(1, "a")] [] [] [] 2) =
      Except.ok (GroupsDB.mk [(1, "a")] [] [(some 1, 1)] [] 2) ∧
    Desc [(some 1, 1)] 1 1 :=
  ⟨rfl, Desc.base (List.mem_singleton.mpr rfl)⟩

/-- C1 (amended): `adoptGroup` performs no cycle check — whenever the child
group exists the call succeeds and inserts the edge `parent → child`, even
when the parent is the child itself or a deep descendant of the child, and
in that case the child-group relation contains a cycle afterwards: the
relation is not kept acyclic by `adoptGroup`. -/
theorem adoptGroup_accepts_cycles (g : Group) (p cid : Nat) (db : GroupsDB)
    (hchild : cid ∈ db.groups.map Prod.fst) (hid : g.id = some p)
    (hcyc : p = cid ∨ Desc db.groupChild cid p) :
    ∃ db2, Group.adoptGroup g cid db = Except.ok db2 ∧ Desc db2.groupChild cid cid := by
  refine ⟨_, adoptGroup_ok hchild, ?_⟩
  have hnew : (some p, cid) ∈ db.groupChild ++ [(g.id, cid)] := by
    rw [hid.symm]
    exact List.mem_append_right _ (List.mem_singleton.mpr rfl)
  rcases hcyc with hpc | hdesc
  · subst hpc
    exact Desc.base hnew
  · exact Desc.tail (hdesc.mono (fun e he => List.mem_append_left _ he)) hnew

/-- Witness for C1 (amended): the self-adoption of group 1 goes through and
yields a cyclic relation. -/
theorem adoptGroup_accepts_cycles_witness :
    ∃ db2, Group.adoptGroup (Group.mk (some 1) "a") 1 (GroupsDB.mk [(1, "a")] [] [] [] 2) =
      Except.ok db2 ∧ Desc db2.groupChild 1 1 :=
  adoptGroup_accepts_cycles (Group.mk (some 1) "a") 1 1 (GroupsDB.mk [(1, "a")] [] [] [] 2)
    (by decide) rfl (Or.inl rfl)

/-! Lemmas about the deep-descendant traversal. -/

lemma mem_expandStep {edges : List (Option Nat × Nat)} {s : List Nat} {y : Nat} :
    y ∈ expandStep edges s ↔ y ∈ s ∨ ∃ p, p ∈ s ∧ (some p, y) ∈ edges := by
  unfold expandStep
  rw [List.mem_dedup, List.mem_append]
  constructor
  · rintro (h | h)
    · exact Or.inl h
    · rcases List.mem_map.mp h with ⟨e, hef, rfl⟩
      have he := List.mem_filter.mp hef
      rcases of_decide_eq_true he.2 with ⟨p, hp, hep⟩
      refine Or.inr ⟨p, hp, ?_⟩
      rw [← hep, Prod.mk.eta]
      exact he.1
  · rintro (h | ⟨p, hp, hm⟩)
    · exact Or.inl h
    · refine Or.inr (List.mem_map.mpr ⟨(some p, y), List.mem_filter.mpr ⟨hm, ?_⟩, rfl⟩)
      exact decide_eq_true ⟨p, hp, rfl⟩

lemma subset_expandStep {edges : List (Option Nat × Nat)} {s : List Nat} :
    ∀ y ∈ s, y ∈ expandStep edges s :=
  fun _ hy => mem_expandStep.mpr (Or.inl hy)

lemma nodup_expandStep (edges : List (Option Nat × Nat)) (s : List Nat) :
    (expandStep edges s).Nodup :=
  List.nodup_dedup _

lemma target_expandStep {edges : List (Option Nat × Nat)} {s : List Nat}
    (hs : ∀ x ∈ s, x ∈ edges.map Prod.snd) :
    ∀ y ∈ expandStep edges s, y ∈ edges.map Prod.snd := by
  intro y hy
  rcases mem_expandStep.mp hy with h | ⟨p, _, hm⟩
  · exact hs y h
  · exact List.mem_map.mpr ⟨(some p, y), hm, rfl⟩

lemma expandStep_congr {edges : List (Option Nat × Nat)} {s t : List Nat}
    (h : ∀ x, x ∈ s ↔ x ∈ t) :
    ∀ y, y ∈ expandStep edges s ↔ y ∈ expandStep edges t := by
  intro y
  rw [mem_expandStep, mem_expandStep]
  constructor
  · rintro (hy | ⟨p, hp, hm⟩)
    · exact Or.inl ((h y).mp hy)
    · exact Or.inr ⟨p, (h p).mp hp, hm⟩
  · rintro (hy | ⟨p, hp, hm⟩)
    · exact Or.inl ((h y).mpr hy)
    · exact Or.inr ⟨p, (h p).mpr hp, hm⟩

lemma deepAux_step (edges : List (Option Nat × Nat)) (k : Nat) (s : List Nat) :
    deepAux edges (k + 1) s = expandStep edges (deepAux edges k s) := by
  induction k generalizing s with
  | zero => rfl
  | succ k ih =>
      show deepAux edges (k + 1) (expandStep edges s) = _
      rw [ih]
      rfl

lemma subset_deepAux (edges : List (Option Nat × Nat)) (k : Nat) (s : List Nat) :
    ∀ x ∈ s, x ∈ deepAux edges k s := by
  induction k generalizing s with
  | zero => exact fun x hx => hx
  | succ k ih =>
      intro x hx
      exact ih (expandStep edges s) x (subset_expandStep x hx)

lemma nodup_deepAux (edges : List (Option Nat × Nat)) (k : Nat) (s : List Nat)
    (hs : s.Nodup) : (deepAux edges k s).Nodup := by
  induction k generalizing s with
  | zero => exact hs
  | succ k ih => exact ih (expandStep edges s) (nodup_expandStep edges s)

lemma target_deepAux (edges : List (Option Nat × Nat)) (k : Nat) (s : List Nat)
    (hs : ∀ x ∈ s, x ∈ edges.map Prod.snd) :
    ∀ x ∈ deepAux edges k s, x ∈ edges.map Prod.snd := by
  induction k generalizing s with
  | zero => exact hs
  | succ k ih => exact ih (expandStep edges s) (target_expandStep hs)

lemma deepAux_congr (edges : List (Option Nat × Nat)) (k : Nat) {s t : List Nat}
    (h : ∀ x, x ∈ s ↔ x ∈ t) :
    ∀ y, y ∈ deepAux edges k s ↔ y ∈ deepAux edges k t := by
  induction k generalizing s t with
  | zero => exact h
  | succ k ih => exact ih (expandStep_congr h)

lemma desc_deepAux (edges : List (Option Nat × Nat)) (root : Nat) (k : Nat) (s : List Nat)
    (hs : ∀ x ∈ s, Desc edges root x) :
    ∀ y ∈ deepAux edges k s, Desc edges root y := by
  induction k generalizing s with
  | zero => exact hs
  | succ k ih =>
      refine ih (expandStep edges s) ?_
      intro x hx
      rcases mem_expandStep.mp hx with h | ⟨p, hp, hm⟩
      · exact hs x h
      · exact Desc.tail (hs p hp) hm

lemma length_lt_expandStep {edges : List (Option Nat × Nat)} {s : List Nat}
    (hnd : s.Nodup) (hne : ¬ ∀ y, y ∈ expandStep edges s ↔ y ∈ s) :
    s.length < (expandStep edges s).length := by
  push_neg at hne
  rcases hne with ⟨y, hy⟩
  have hy1 : y ∈ expandStep edges s ∧ y ∉ s := by
    rcases hy with h | h
    · exact h
    · exact absurd (subset_expandStep y h.2) h.1
  have hsub : s.toFinset ⊆ (expandStep edges s).toFinset := by
    intro a ha
    exact List.mem_toFinset.mpr (subset_expandStep a (List.mem_toFinset.mp ha))
  have hss : s.toFinset ⊂ (expandStep edges s).toFinset :=
    (Finset.ssubset_iff_of_subset hsub).mpr
      ⟨y, List.mem_toFinset.mpr hy1.1, fun hc => hy1.2 (List.mem_toFinset.mp hc)⟩
  calc s.length = s.toFinset.card := (List.toFinset_card_of_nodup hnd).symm
    _ < (expandStep edges s).toFinset.card := Finset.card_lt_card hss
    _ = (expandStep edges s).length := List.toFinset_card_of_nodup (nodup_expandStep edges s)

lemma length_le_targets {s T : List Nat} (hnd : s.Nodup) (hsub : ∀ x ∈ s, x ∈ T) :
    s.length ≤ T.dedup.length := by
  have h1 : s.toFinset ⊆ T.dedup.toFinset := by
    intro a ha
    rw [List.mem_toFinset, List.mem_dedup]
    exact hsub a (List.mem_toFinset.mp ha)
  calc s.length = s.toFinset.card := (List.toFinset_card_of_nodup hnd).symm
    _ ≤ T.dedup.toFinset.card := Finset.card_le_card h1
    _ = T.dedup.length := List.toFinset_card_of_nodup (List.nodup_dedup T)

lemma deepAux_grow (edges : List (Option Nat × Nat)) (s : List Nat) (hnd : s.Nodup) :
    ∀ k : Nat,
      (∀ j, j < k → ¬ ∀ y, y ∈ expandStep edges (deepAux edges j s) ↔ y ∈ deepAux edges j s) →
      k ≤ (deepAux edges k s).length := by
  intro k
  induction k with
  | zero => exact fun _ => Nat.zero_le _
  | succ k ih =>
      intro h
      have hk := ih (fun j hj => h j (Nat.lt_succ_of_lt hj))
      have hnf := h k (Nat.lt_succ_self k)
      have hlt := length_lt_expandStep (nodup_deepAux edges k s hnd) hnf
      rw [deepAux_step]
      omega

lemma exists_fix (edges : List (Option Nat × Nat)) (s : List Nat) (hnd : s.Nodup)
    (hT : ∀ x ∈ s, x ∈ edges.map Prod.snd) :
    ∃ j, j ≤ (edges.map Prod.snd).dedup.length ∧
      (∀ y, y ∈ expandStep edges (deepAux edges j s) ↔ y ∈ deepAux edges j s) := by
  by_contra hc
  have hc2 : ∀ j, j ≤ (edges.map Prod.snd).dedup.length →
      ¬ ∀ y, y ∈ expandStep edges (deepAux edges j s) ↔ y ∈ deepAux edges j s :=
    fun j hj hp => hc ⟨j, hj, hp⟩
  have hgrow := deepAux_grow edges s hnd ((edges.map Prod.snd).dedup.length + 1)
    (fun j hj => hc2 j (Nat.lt_succ_iff.mp hj))
  have hb := length_le_targets
    (nodup_deepAux edges ((edges.map Prod.snd).dedup.length + 1) s hnd)
    (target_deepAux edges ((edges.map Prod.snd).dedup.length + 1) s hT)
  omega

lemma fix_propagate (edges : List (Option Nat × Nat)) (s : List Nat) {j : Nat}
    (hfix : ∀ y, y ∈ expandStep edges (deepAux edges j s) ↔ y ∈ deepAux edges j s) :
    ∀ k, j ≤ k → ∀ y, y ∈ deepAux edges k s ↔ y ∈ deepAux edges j s := by
  intro k hjk
  induction k, hjk using Nat.le_induction with
  | base => exact fun y => Iff.rfl
  | succ k hjk ih =>
      intro y
      rw [deepAux_step]
      exact Iff.trans (expandStep_congr ih y) (hfix y)

lemma childIDs_sub_targets (edges : List (Option Nat × Nat)) (root : Nat) :
    ∀ x ∈ (childIDs edges root).dedup, x ∈ edges.map Prod.snd := by
  intro x hx
  rw [List.mem_dedup] at hx
  rcases List.mem_map.mp hx with ⟨e, hef, rfl⟩
  exact List.mem_map.mpr ⟨e, List.mem_of_mem_filter hef, rfl⟩

lemma deepClosure_fix (edges : List (Option Nat × Nat)) (root : Nat) :
    ∀ y, y ∈ expandStep edges (deepClosure edges root) ↔ y ∈ deepClosure edges root := by
  obtain ⟨j, hj, hfix⟩ := exists_fix edges (childIDs edges root).dedup
    (List.nodup_dedup _) (childIDs_sub_targets edges root)
  have hprop := fix_propagate edges (childIDs edges root).dedup hfix
    ((edges.map Prod.snd).dedup.length + 1) (Nat.le_succ_of_le hj)
  intro y
  unfold deepClosure
  exact Iff.trans (expandStep_congr hprop y) (Iff.trans (hfix y) (hprop y).symm)

lemma mem_childIDs {edges : List (Option Nat × Nat)} {root c : Nat}
    (h : (some root, c) ∈ edges) : c ∈ childIDs edges root := by
  unfold childIDs
  exact List.mem_map.mpr ⟨(some root, c), List.mem_filter.mpr ⟨h, by simp⟩, rfl⟩

lemma mem_deepClosure_iff (edges : List (Option Nat × Nat)) (root : Nat) :
    ∀ y, y ∈ deepClosure edges root ↔ Desc edges root y := by
  intro y
  constructor
  · intro hy
    refine desc_deepAux edges root _ _ ?_ y hy
    intro x hx
    rw [List.mem_dedup] at hx
    rcases List.mem_map.mp hx with ⟨e, hef, rfl⟩
    have he := List.mem_filter.mp hef
    have h1 : e.1 = some root := beq_iff_eq.mp he.2
    refine Desc.base ?_
    rw [← h1, Prod.mk.eta]
    exact he.1
  · intro hd
    induction hd with
    | base hm =>
        exact subset_deepAux edges _ _ _ (List.mem_dedup.mpr (mem_childIDs hm))
    | tail _ hm ih =>
        exact (deepClosure_fix edges root _).mp (mem_expandStep.mpr (Or.inr ⟨_, ih, hm⟩))

lemma Desc_iff_of_mem_iff {E F : List (Option Nat × Nat)}
    (h : ∀ e : Option Nat × Nat, e ∈ E ↔ e ∈ F) {p c : Nat} : Desc E p c ↔ Desc F p c :=
  ⟨Desc.mono (fun e he => (h e).mp he), Desc.mono (fun e he => (h e).mpr he)⟩

/-- C4: `getDeepGroupsByGroupID` returns the deep child groups as a set:
the list carries no duplicate ids, membership coincides exactly with deep
descendance (the full transitive closure, diamond shapes deduplicated), and
stores whose edge rows are permutations of one another — edges inserted in
any order — yield the same set.  The traversal is a total function, so it
terminates on every store. -/
theorem getDeepGroups_closure (db : GroupsDB) (id : Nat) :
    (Group.getDeepGroupsByGroupID db id).Nodup ∧
    (∀ y, y ∈ Group.getDeepGroupsByGroupID db id ↔ Desc db.groupChild id y) ∧
    (∀ db2 : GroupsDB, db.groupChild.Perm db2.groupChild →
      ∀ y, y ∈ Group.getDeepGroupsByGroupID db id ↔ y ∈ Group.getDeepGroupsByGroupID db2 id) := by
  refine ⟨?_, mem_deepClosure_iff db.groupChild id, ?_⟩
  · exact nodup_deepAux _ _ _ (List.nodup_dedup _)
  · intro db2 hperm y
    rw [Group.getDeepGroupsByGroupID, Group.getDeepGroupsByGroupID,
      mem_deepClosure_iff, mem_deepClosure_iff]
    exact Desc_iff_of_mem_iff (fun e => hperm.mem_iff)

/-- Witness for C4 on a diamond store (1 → 2, 1 → 3, 2 → 4, 3 → 4) and a
permuted copy of its edge rows: the closure of group 1 is duplicate-free,
contains 4 exactly because 4 is a deep descendant, and is insensitive to
the edge order. -/
theorem getDeepGroups_closure_witness :
    (Group.getDeepGroupsByGroupID
      (GroupsDB.mk [(1, "a"), (2, "b"), (3, "c"), (4, "d")] []
        [(some 1, 2), (some 1, 3), (some 2, 4), (some 3, 4)] [] 5) 1).Nodup ∧
    (4 ∈ Group.getDeepGroupsByGroupID
      (GroupsDB.mk [(1, "a"), (2, "b"), (3, "c"), (4, "d")] []
        [(some 1, 2), (some 1, 3), (some 2, 4), (some 3, 4)] [] 5) 1 ↔
      Desc [(some 1, 2), (some 1, 3), (some 2, 4), (some 3, 4)] 1 4) ∧
    (∀ y, y ∈ Group.getDeepGroupsByGroupID
      (GroupsDB.mk [(1, "a"), (2, "b"), (3, "c"), (4, "d")] []
        [(some 1, 2), (some 1, 3), (some 2, 4), (some 3, 4)] [] 5) 1 ↔
      y ∈ Group.getDeepGroupsByGroupID
      (GroupsDB.mk [(1, "a"), (2, "b"), (3, "c"), (4, "d")] []
        [(some 3, 4), (some 2, 4), (some 1, 3), (some 1, 2)] [] 5) 1) := by
  have h := getDeepGroups_closure
    (GroupsDB.mk [(1, "a"), (2, "b"), (3, "c"), (4, "d")] []
      [(some 1, 2), (some 1, 3), (some 2, 4), (some 3, 4)] [] 5) 1
  exact ⟨h.1, h.2.1 4,
    h.2.2 (GroupsDB.mk [(1, "a"), (2, "b"), (3, "c"), (4, "d")] []
      [(some 3, 4), (some 2, 4), (some 1, 3), (some 1, 2)] [] 5) (by decide)⟩

/-! Lemmas about the update cycle. -/

lemma applyMeter_persists {reader : Nat → Option Reading} {m : Nat} {r : Reading}
    (db : ReadingsDB) (hr : reader m = some r) (hv : validReading r = true) :
    applyMeter reader db m = ReadingsDB.mk (db.readings ++ [r]) := by
  simp only [applyMeter, hr, hv, if_true]

lemma applyMeter_skips {reader : Nat → Option Reading} {m : Nat} (db : ReadingsDB)
    (hf : fetchSucceeds reader m = false) :
    applyMeter reader db m = db := by
  unfold fetchSucceeds at hf
  cases hr : reader m with
  | none => simp only [applyMeter, hr]
  | some r =>
      rw [hr] at hf
      have hf2 : validReading r = false := hf
      simp only [applyMeter, hr, hf2]
      rfl

lemma getAll_applyMeter_ne (reader : Nat → Option Reading) (db : ReadingsDB) (n m : Nat)
    (hne : n ≠ m) (haddr : ∀ r, reader n = some r → r.meterID = n) :
    Reading.getAllByMeterID (applyMeter reader db n) m = Reading.getAllByMeterID db m := by
  cases hs : fetchSucceeds reader n with
  | false => rw [applyMeter_skips db hs]
  | true =>
      unfold fetchSucceeds at hs
      cases hr : reader n with
      | none => rw [hr] at hs; exact Bool.noConfusion hs
      | some r =>
          rw [hr] at hs
          rw [applyMeter_persists db hr hs]
          unfold Reading.getAllByMeterID
          rw [List.filter_append]
          have hf : [r].filter (fun x => x.meterID == m) = [] := by
            rw [List.filter_eq_nil_iff]
            intro a ha hb
            rw [List.mem_singleton] at ha
            subst ha
            exact hne ((haddr a hr).symm.trans (beq_iff_eq.mp hb))
          rw [hf, List.append_nil]

lemma getAll_applyMeter_self (reader : Nat → Option Reading) (db : ReadingsDB) (m : Nat)
    (haddr : ∀ r, reader m = some r → r.meterID = m) :
    (fetchSucceeds reader m = true →
      (Reading.getAllByMeterID (applyMeter reader db m) m).length =
        (Reading.getAllByMeterID db m).length + 1) ∧
    (fetchSucceeds reader m = false →
      Reading.getAllByMeterID (applyMeter reader db m) m = Reading.getAllByMeterID db m) := by
  constructor
  · intro hs
    have hs2 := hs
    unfold fetchSucceeds at hs2
    cases hr : reader m with
    | none => rw [hr] at hs2; exact Bool.noConfusion hs2
    | some r =>
        rw [hr] at hs2
        rw [applyMeter_persists db hr hs2]
        unfold Reading.getAllByMeterID
        rw [List.filter_append]
        have hf1 : [r].filter (fun x => x.meterID == m) = [r] := by
          rw [List.filter_eq_self]
          intro a ha
          rw [List.mem_singleton] at ha
          subst ha
          exact beq_iff_eq.mpr (haddr a hr)
        rw [hf1, List.length_append, List.length_singleton]
  · intro hf
    rw [applyMeter_skips db hf]

lemma getAll_fold_not_mem (reader : Nat → Option Reading) (meters : List Nat) (db : ReadingsDB)
    (m : Nat) (haddr : ∀ n ∈ meters, ∀ r, reader n = some r → r.meterID = n)
    (hm : m ∉ meters) :
    Reading.getAllByMeterID (updateAllMeters reader meters db) m =
      Reading.getAllByMeterID db m := by
  induction meters generalizing db with
  | nil => rfl
  | cons n rest ih =>
      have hne : n ≠ m := fun h => hm (h ▸ List.mem_cons_self n rest)
      have hstep := getAll_applyMeter_ne reader db n m hne
        (haddr n (List.mem_cons_self n rest))
      have hrest := ih (applyMeter reader db n)
        (fun x hx => haddr x (List.mem_cons_of_mem n hx))
        (fun h => hm (List.mem_cons_of_mem n h))
      exact hrest.trans hstep

lemma getAll_fold_mem (reader : Nat → Option Reading) (meters : List Nat) (db : ReadingsDB)
    (m : Nat) (hnd : meters.Nodup) (hm : m ∈ meters)
    (haddr : ∀ n ∈ meters, ∀ r, reader n = some r → r.meterID = n) :
    (fetchSucceeds reader m = true →
      (Reading.getAllByMeterID (updateAllMeters reader meters db) m).length =
        (Reading.getAllByMeterID db m).length + 1) ∧
    (fetchSucceeds reader m = false →
      Reading.getAllByMeterID (updateAllMeters reader meters db) m =
        Reading.getAllByMeterID db m) := by
  induction meters generalizing db with
  | nil => exact absurd hm (List.not_mem_nil m)
  | cons n rest ih =>
      rcases List.mem_cons.mp hm with hm1 | hm2
      · subst hm1
        have hmrest : m ∉ rest := (List.nodup_cons.mp hnd).1
        have hrest := getAll_fold_not_mem reader rest (applyMeter reader db m) m
          (fun x hx => haddr x (List.mem_cons_of_mem m hx)) hmrest
        have hself := getAll_applyMeter_self reader db m (haddr m (List.mem_cons_self m rest))
        constructor
        · intro hs
          have : Reading.getAllByMeterID (updateAllMeters reader (m :: rest) db) m =
              Reading.getAllByMeterID (applyMeter reader db m) m := hrest
          rw [this, hself.1 hs]
        · intro hf
          have : Reading.getAllByMeterID (updateAllMeters reader (m :: rest) db) m =
              Reading.getAllByMeterID (applyMeter reader db m) m := hrest
          rw [this, hself.2 hf]
      · have hne : n ≠ m := by
          intro h
          subst h
          exact (List.nodup_cons.mp hnd).1 hm2
        have hstep := getAll_applyMeter_ne reader db n m hne
          (haddr n (List.mem_cons_self n rest))
        have hrest := ih (applyMeter reader db n) (List.nodup_cons.mp hnd).2 hm2
          (fun x hx => haddr x (List.mem_cons_of_mem n hx))
        constructor
        · intro hs
          have h1 := hrest.1 hs
          rw [show updateAllMeters reader (n :: rest) db =
            updateAllMeters reader rest (applyMeter reader db n) from rfl, h1, hstep]
        · intro hf
          have h1 := hrest.2 hf
          rw [show updateAllMeters reader (n :: rest) db =
            updateAllMeters reader rest (applyMeter reader db n) from rfl, h1, hstep]

/-- C2: over a duplicate-free meter batch whose fetched readings are
addressed to their own meter, one update cycle gives every meter whose
fetch resolves with a valid reading exactly one additional persisted
reading, and leaves the readings of every meter whose fetch rejects (or
whose reading fails validation) exactly as they were — one meter's
rejection never aborts or disturbs the processing of the other meters of
the cycle. -/
theorem updateAllMeters_isolates_failures (reader : Nat → Option Reading) (meters : List Nat)
    (db : ReadingsDB) (hnd : meters.Nodup)
    (haddr : ∀ n ∈ meters, ∀ r, reader n = some r → r.meterID = n) :
    ∀ m ∈ meters,
      (fetchSucceeds reader m = true →
        (Reading.getAllByMeterID (updateAllMeters reader meters db) m).length =
          (Reading.getAllByMeterID db m).length + 1) ∧
      (fetchSucceeds reader m = false →
        Reading.getAllByMeterID (updateAllMeters reader meters db) m =
          Reading.getAllByMeterID db m) :=
  fun m hm => getAll_fold_mem reader meters db m hnd hm haddr

/-- Witness for C2, mirroring the test of `updateMetersTests.js`: meter 1
(GOOD) resolves a reading over the interval from 0 to 3600 seconds, meter 2
(BAD) rejects; after the cycle on an empty store, meter 1 has exactly one
reading and meter 2 still has none. -/
theorem updateAllMeters_isolates_failures_witness :
    (Reading.getAllByMeterID
      (updateAllMeters (fun m => if m = 1 then some (Reading.mk 1 0 0 3600) else none)
        [1, 2] (ReadingsDB.mk [])) 1).length =
      (Reading.getAllByMeterID (ReadingsDB.mk []) 1).length + 1 ∧
    Reading.getAllByMeterID
      (updateAllMeters (fun m => if m = 1 then some (Reading.mk 1 0 0 3600) else none)
        [1, 2] (ReadingsDB.mk [])) 2 =
      Reading.getAllByMeterID (ReadingsDB.mk []) 2 := by
  have haddr : ∀ n ∈ ([1, 2] : List Nat), ∀ r : Reading,
      (if n = 1 then some (Reading.mk 1 0 0 3600) else none) = some r → r.meterID = n := by
    intro n hn r hr
    rcases List.mem_cons.mp hn with h1 | hn2
    · subst h1
      rw [if_pos rfl] at hr
      rw [← Option.some_inj.mp hr]
    · rcases List.mem_cons.mp hn2 with h2 | h3
      · subst h2
        rw [if_neg (by decide)] at hr
        exact Option.noConfusion hr
      · exact absurd h3 (List.not_mem_nil n)
  have h := updateAllMeters_isolates_failures
    (fun m => if m = 1 then some (Reading.mk 1 0 0 3600) else none) [1, 2]
    (ReadingsDB.mk []) (by decide) haddr
  exact ⟨(h 1 (by decide)).1 (by decide), (h 2 (by decide)).2 (by decide)⟩

end OED
